import Mathlib

/-!
Verification of the CEO Dashboard approval coordinator.

This file gives a shallow embedding of the approval-coordination core of
the repository (main.py and mcp_permission_server.py) and proves the
frozen claims about it.

Conventions of the embedding:
* Python strings are Lean `String`s; `str.split()` (whitespace
  tokenization dropping empty tokens) and substring tests (`in`) are
  implemented over `List Char` so that concrete inputs evaluate in the
  kernel.
* A Python dict used as a tool input is modelled by the record of the
  fields the code reads (`command`, `file_path`, `filePath`), each an
  `Option String` (`none` = key absent); `dict.get(k, "")` becomes
  `Option.getD`.
* The per-agent family of pattern sets `auto_approve_patterns`
  (agent id -> set of strings) is represented by its graph: a list of
  (agent id, pattern) pairs.  `p` is in agent `a`'s set iff `(a, p)` is
  in the list; set insertion adds a pair only when it is absent.
-/

/-- Python `str.split()` tokenization, accumulator form: `cur` is the
current (reversed) run of non-whitespace characters. -/
def splitWsAux : List Char → List Char → List String
  | [], cur => if cur.isEmpty then [] else [String.mk cur.reverse]
  | c :: rest, cur =>
      if c.isWhitespace then
        if cur.isEmpty then splitWsAux rest []
        else String.mk cur.reverse :: splitWsAux rest []
      else splitWsAux rest (c :: cur)

/-- Python `s.split()`: maximal runs of non-whitespace characters. -/
def pySplitWs (s : String) : List String := splitWsAux s.data []

/-- `isPrefixList a b`: the character list `a` is a prefix of `b`
(Python `b.startswith(a)` at position 0). -/
def isPrefixList : List Char → List Char → Bool
  | [], _ => true
  | _ :: _, [] => false
  | a :: as, b :: bs => a == b && isPrefixList as bs

/-- Python `w.startswith(pre)`. -/
def pyStartsWith (w pre : String) : Bool := isPrefixList pre.data w.data

/-- `hasSubstr s sub`: `sub` occurs contiguously in `s`
(Python `sub in s`). -/
def hasSubstr : List Char → List Char → Bool
  | [], sub => sub.isEmpty
  | c :: t, sub => isPrefixList sub (c :: t) || hasSubstr t sub

/-- Python `sub in s` on strings. -/
def pyIn (sub s : String) : Bool := hasSubstr s.data sub.data

/-- The characters after the last '/' of the list (Python
`w.split("/")[-1]`): scanning left to right, the accumulator is reset at
every '/'. -/
def afterLastSlash : List Char → List Char → List Char
  | [], acc => acc.reverse
  | c :: rest, acc =>
      if c = '/' then afterLastSlash rest []
      else afterLastSlash rest (c :: acc)

/-- Python `w.split("/")[-1]` as a string. -/
def lastSlashComponent (w : String) : String :=
  String.mk (afterLastSlash w.data [])

/-- The fields of a tool-input dict that the coordinator reads.  `none`
models an absent key. -/
structure ToolInput where
  command : Option String := none
  file_path : Option String := none
  filePath : Option String := none
deriving DecidableEq, Repr

/-- `extract_command_prefix` of main.py (lines 105-139): the
auto-approve pattern derived from a tool invocation.  For "Bash" the
first whitespace token of the command is taken; "./..." gives the
literal "Bash:./"; an absolute path gives "Bash:" plus the token's last
"/"-component, or "Bash:/" when that component is empty; otherwise
"Bash:" plus the token.  Any other tool name is returned unchanged. -/
def extract_command_pat (tool_name : String) (tool_input : ToolInput) : String :=
  if tool_name = "Bash" then
    let command := tool_input.command.getD ""
    let first_word := (pySplitWs command).headD ""
    if pyStartsWith first_word "./" then "Bash:./"
    else if pyStartsWith first_word "/" then
      let cmd_name := lastSlashComponent first_word
      if cmd_name ≠ "" then "Bash:" ++ cmd_name else "Bash:/"
    else "Bash:" ++ first_word
  else tool_name

/-- The pattern-derivation rule as the specification words it: tokenize
the Bash command on whitespace, take the first token; "./..." maps to
"Bash:./"; an absolute path maps to "Bash:" plus its basename, with
"Bash:/" when the basename is empty; otherwise "Bash:" plus the token;
a non-Bash tool name is unchanged. -/
def specDerivedPat (tool_name : String) (tool_input : ToolInput) : String :=
  if tool_name = "Bash" then
    let tok := (pySplitWs (tool_input.command.getD "")).headD ""
    if pyStartsWith tok "./" then "Bash:./"
    else if pyStartsWith tok "/" then
      let basename := lastSlashComponent tok
      if basename = "" then "Bash:/" else "Bash:" ++ basename
    else "Bash:" ++ tok
  else tool_name

/-- C1: for every tool name and tool input the derived auto-approve
pattern agrees with the specification's derivation rule, and the four
quoted examples hold: "npm install x" gives "Bash:npm", "./run.sh"
gives "Bash:./", "/usr/bin/python foo" gives "Bash:python", and a
non-Bash tool name ("Edit") is returned unchanged. -/
theorem extract_pattern_spec :
    (∀ tool_name tool_input,
      extract_command_pat tool_name tool_input = specDerivedPat tool_name tool_input)
    ∧ extract_command_pat "Bash" { command := some "npm install x" } = "Bash:npm"
    ∧ extract_command_pat "Bash" { command := some "./run.sh" } = "Bash:./"
    ∧ extract_command_pat "Bash" { command := some "/usr/bin/python foo" } = "Bash:python"
    ∧ extract_command_pat "Edit" {} = "Edit" := by
  refine ⟨?_, by decide, by decide, by decide, by decide⟩
  intro tool_name tool_input
  unfold extract_command_pat specDerivedPat
  by_cases hb : tool_name = "Bash"
  · simp only [hb, if_pos rfl]
    by_cases h1 : pyStartsWith ((pySplitWs (tool_input.command.getD "")).headD "") "./"
    · simp [h1]
    · by_cases h2 : pyStartsWith ((pySplitWs (tool_input.command.getD "")).headD "") "/"
      · by_cases h3 : lastSlashComponent ((pySplitWs (tool_input.command.getD "")).headD "") = ""
        · simp [h1, h2, h3]
        · simp [h1, h2, h3]
      · simp [h1, h2]
  · simp [hb]

/-- A permission decision as returned to the MCP server: the JSON
objects {"behavior": "allow", "updatedInput": ...} and
{"behavior": "deny", "message": ...} of main.py. -/
inductive Decision where
  | allow (updatedInput : Option ToolInput)
  | deny (message : String)
deriving DecidableEq, Repr

/-- One "approval_request" broadcast message (main.py lines 689-700). -/
structure ApprovalNotif where
  request_id : String
  agent_id : String
  tool_name : String
  tool_input : ToolInput
  command_display : String
  cwd : String
  pattern : String
deriving DecidableEq, Repr

/-- The coordinator state touched by the approval flow:
* `patterns` is `auto_approve_patterns` represented by its graph;
* `pending` is the key set of `pending_approvals` (ids whose future is
  unresolved and whose caller is suspended);
* `delivered` records, in order, each decision a suspended
  `handle_approve_request` call received and returned;
* `notifs` is the ordered log of "approval_request" broadcasts. -/
structure ServerState where
  patterns : List (String × String)
  pending : List String
  delivered : List (String × Decision)
  notifs : List ApprovalNotif
deriving DecidableEq, Repr

/-- `auto_approve_patterns.get(agent_id, set())` — the patterns of one
agent, read off the graph representation. -/
def agentPatterns (pats : List (String × String)) (agent_id : String) : List String :=
  (pats.filter (fun kv => kv.1 = agent_id)).map (fun kv => kv.2)

/-- Python `set.add`: insert the pair only when absent. -/
def patAdd (pats : List (String × String)) (a p : String) : List (String × String) :=
  if (a, p) ∈ pats then pats else (a, p) :: pats

/-- `auto_approve_patterns[a] = set()` or `auto_approve_patterns.pop(a)`:
in the graph representation both leave agent `a` with no patterns. -/
def patClear (pats : List (String × String)) (a : String) : List (String × String) :=
  pats.filter (fun kv => kv.1 ≠ a)

/-- `should_auto_approve` of main.py (lines 142-162). -/
def should_auto_approve (pats : List (String × String)) (agent_id tool_name : String)
    (tool_input : ToolInput) : Bool :=
  let patterns := agentPatterns pats agent_id
  if patterns = [] then false
  else if tool_name ∈ patterns then true
  else if extract_command_pat tool_name tool_input ∈ patterns then true
  else false

/-- `command_display` computed in `handle_approve_request`
(main.py lines 680-686): Bash shows the raw command, Edit/Write/
MultiEdit show the file path under either field-name spelling (Python
`get("file_path", "") or get("filePath", "")`), anything else is empty. -/
def command_display (tool_name : String) (tool_input : ToolInput) : String :=
  if tool_name = "Bash" then tool_input.command.getD ""
  else if tool_name = "Edit" ∨ tool_name = "Write" ∨ tool_name = "MultiEdit" then
    let fp := tool_input.file_path.getD ""
    if fp ≠ "" then fp else tool_input.filePath.getD ""
  else ""

/-- What `handle_approve_request` does before any decision arrives:
either it answered at once (cache hit) or it is suspended on the future
registered under the given request id. -/
inductive ApproveOutcome where
  | immediate (d : Decision)
  | suspended (request_id : String)
deriving DecidableEq, Repr

/-- `handle_approve_request` of main.py (lines 637-714) up to its
suspension point.  `fresh_id` stands for the `uuid.uuid4()` allocated
on a cache miss.  On a cache hit the decision
{allow, updatedInput: tool_input} is returned at once and the state is
untouched; on a miss a pending entry is registered and exactly one
"approval_request" notification is appended. -/
def handle_approve_request (st : ServerState) (agent_id tool_name : String)
    (tool_input : ToolInput) (cwd fresh_id : String) : ApproveOutcome × ServerState :=
  if should_auto_approve st.patterns agent_id tool_name tool_input then
    (.immediate (.allow (some tool_input)), st)
  else
    (.suspended fresh_id,
     { st with
        pending := st.pending ++ [fresh_id],
        notifs := st.notifs ++
          [{ request_id := fresh_id, agent_id := agent_id, tool_name := tool_name,
             tool_input := tool_input,
             command_display := command_display tool_name tool_input,
             cwd := cwd, pattern := extract_command_pat tool_name tool_input }] })

/-- An "approval_response" websocket message as the handler reads it
(main.py lines 753-757): every field is fetched with `dict.get` and may
be absent. -/
structure WsApprovalMsg where
  request_id : Option String
  decision : Option String
  pattern : Option String
  agent_id : Option String
  tool_input : Option ToolInput
deriving DecidableEq, Repr

/-- The decision the websocket handler builds for the waiting future
(main.py lines 776-789): on "allow", updatedInput is the message's own
tool_input field; on anything else, a deny with the fixed text. -/
def decisionOfMsg (msg : WsApprovalMsg) : Decision :=
  if msg.decision = some "allow" then .allow msg.tool_input
  else .deny "Denied by user"

/-- Pattern storage on an approval response (main.py lines 764-771):
`if pattern and agent_id and decision == "allow"`, i.e. both strings
present and non-empty and the decision literally "allow". -/
def storePattern (st : ServerState) (msg : WsApprovalMsg) : ServerState :=
  match msg.pattern, msg.agent_id with
  | some p, some a =>
      if p ≠ "" ∧ a ≠ "" ∧ msg.decision = some "allow" then
        { st with patterns := patAdd st.patterns a p }
      else st
  | _, _ => st

/-- Resolution of a pending approval (main.py lines 773-789 together
with the `finally` pop at lines 707-711): if the request id is a key of
the pending table, its future is fulfilled, the suspended
`handle_approve_request` call receives the decision (recorded in
`delivered`) and removes the entry; an absent or unknown id changes
nothing.  Fulfilment, delivery and removal are one atomic step here:
under the coordinator's cooperative scheduling the awakened handler's
`finally` block runs before any further websocket message is
processed. -/
def resolveApproval (st : ServerState) (msg : WsApprovalMsg) : ServerState :=
  match msg.request_id with
  | none => st
  | some rid =>
      if rid ∈ st.pending then
        { st with
            pending := st.pending.erase rid,
            delivered := st.delivered ++ [(rid, decisionOfMsg msg)] }
      else st

/-- The whole "approval_response" branch of the websocket handler:
pattern storage, then resolution. -/
def handle_approval_response (st : ServerState) (msg : WsApprovalMsg) : ServerState :=
  resolveApproval (storePattern st msg) msg

/-- Membership in one agent's pattern set, read off the graph. -/
theorem mem_agentPatterns {pats : List (String × String)} {a p : String} :
    p ∈ agentPatterns pats a ↔ (a, p) ∈ pats := by
  unfold agentPatterns
  constructor
  · intro h
    obtain ⟨⟨x, y⟩, hmem, hsnd⟩ := List.mem_map.mp h
    obtain ⟨hx, hfst⟩ := List.mem_filter.mp hmem
    simp only at hsnd
    have hx1 : x = a := by simpa using hfst
    subst hx1; subst hsnd; exact hx
  · intro h
    exact List.mem_map.mpr ⟨(a, p), List.mem_filter.mpr ⟨h, by simp⟩, rfl⟩

/-- A stored tool name or a stored derived pattern makes
`should_auto_approve` answer true. -/
theorem should_auto_approve_true_of_mem {pats : List (String × String)}
    {agent_id tool_name : String} {tool_input : ToolInput}
    (h : tool_name ∈ agentPatterns pats agent_id ∨
         extract_command_pat tool_name tool_input ∈ agentPatterns pats agent_id) :
    should_auto_approve pats agent_id tool_name tool_input = true := by
  have hne : agentPatterns pats agent_id ≠ [] := by
    rcases h with h | h <;> exact List.ne_nil_of_mem h
  unfold should_auto_approve
  rcases h with h | h
  · simp [hne, h]
  · by_cases hm : tool_name ∈ agentPatterns pats agent_id <;> simp [hne, hm, h]

/-- With neither the tool name nor the derived pattern stored,
`should_auto_approve` answers false. -/
theorem should_auto_approve_false_of_not_mem {pats : List (String × String)}
    {agent_id tool_name : String} {tool_input : ToolInput}
    (hname : tool_name ∉ agentPatterns pats agent_id)
    (hpat : extract_command_pat tool_name tool_input ∉ agentPatterns pats agent_id) :
    should_auto_approve pats agent_id tool_name tool_input = false := by
  unfold should_auto_approve
  by_cases hz : agentPatterns pats agent_id = []
  · simp [hz]
  · simp [hz, hname, hpat]

/-- The cache-hit branch of `handle_approve_request`. -/
theorem approve_hit {st : ServerState} {agent_id tool_name : String}
    {tool_input : ToolInput} {cwd fresh_id : String}
    (h : should_auto_approve st.patterns agent_id tool_name tool_input = true) :
    handle_approve_request st agent_id tool_name tool_input cwd fresh_id
      = (.immediate (.allow (some tool_input)), st) := by
  unfold handle_approve_request
  simp [h]

/-- The cache-miss branch of `handle_approve_request`. -/
theorem approve_miss {st : ServerState} {agent_id tool_name : String}
    {tool_input : ToolInput} {cwd fresh_id : String}
    (h : should_auto_approve st.patterns agent_id tool_name tool_input = false) :
    handle_approve_request st agent_id tool_name tool_input cwd fresh_id
      = (.suspended fresh_id,
         { st with
            pending := st.pending ++ [fresh_id],
            notifs := st.notifs ++
              [{ request_id := fresh_id, agent_id := agent_id, tool_name := tool_name,
                 tool_input := tool_input,
                 command_display := command_display tool_name tool_input,
                 cwd := cwd, pattern := extract_command_pat tool_name tool_input }] }) := by
  unfold handle_approve_request
  simp [h]

/-- Resolution of a request id that is a key of the pending table. -/
theorem resolve_hit {st : ServerState} {msg : WsApprovalMsg} {rid : String}
    (h1 : msg.request_id = some rid) (h2 : rid ∈ st.pending) :
    resolveApproval st msg
      = { st with
            pending := st.pending.erase rid,
            delivered := st.delivered ++ [(rid, decisionOfMsg msg)] } := by
  unfold resolveApproval
  rw [h1]
  simp [h2]

/-- Resolution of an unknown request id changes nothing. -/
theorem resolve_unknown {st : ServerState} {msg : WsApprovalMsg} {rid : String}
    (h1 : msg.request_id = some rid) (h2 : rid ∉ st.pending) :
    resolveApproval st msg = st := by
  unfold resolveApproval
  rw [h1]
  simp [h2]

/-- C2: an approval request whose tool name, or whose derived pattern,
is already stored for the agent is answered immediately with
{allow, updatedInput: the original tool input}; the state — in
particular the pending table and the notification log — is untouched. -/
theorem cache_hit_auto_allows (st : ServerState) (agent_id tool_name : String)
    (tool_input : ToolInput) (cwd fresh_id : String)
    (h : tool_name ∈ agentPatterns st.patterns agent_id ∨
         extract_command_pat tool_name tool_input ∈ agentPatterns st.patterns agent_id) :
    handle_approve_request st agent_id tool_name tool_input cwd fresh_id
      = (.immediate (.allow (some tool_input)), st) :=
  approve_hit (should_auto_approve_true_of_mem h)

/-- Witness for C2: a state storing pattern "Edit" for agent "a1"
answers an "Edit" request at once and unchanged. -/
theorem cache_hit_auto_allows_witness :
    handle_approve_request ⟨[("a1", "Edit")], [], [], []⟩ "a1" "Edit" {} "" "r1"
      = (.immediate (.allow (some {})), ⟨[("a1", "Edit")], [], [], []⟩) :=
  cache_hit_auto_allows ⟨[("a1", "Edit")], [], [], []⟩ "a1" "Edit" {} "" "r1"
    (Or.inl (by decide))

/-- C3: an approval request whose tool name and derived pattern are
both absent from the agent's pattern set suspends the caller on a fresh
request id after emitting exactly one "approval_request" notification
carrying the request id, the tool name, the tool input, the
command_display and the derived pattern; nothing is delivered to the
caller until that id is resolved, and the value then delivered is the
decision built from the resolving message. -/
theorem cache_miss_notifies_and_suspends (st : ServerState)
    (agent_id tool_name : String) (tool_input : ToolInput) (cwd fresh_id : String)
    (hname : tool_name ∉ agentPatterns st.patterns agent_id)
    (hpat : extract_command_pat tool_name tool_input ∉ agentPatterns st.patterns agent_id)
    (hfresh : fresh_id ∉ st.pending) :
    (handle_approve_request st agent_id tool_name tool_input cwd fresh_id).1
        = .suspended fresh_id
    ∧ (handle_approve_request st agent_id tool_name tool_input cwd fresh_id).2.pending.count
        fresh_id = 1
    ∧ (handle_approve_request st agent_id tool_name tool_input cwd fresh_id).2.notifs
        = st.notifs ++
          [{ request_id := fresh_id, agent_id := agent_id, tool_name := tool_name,
             tool_input := tool_input,
             command_display := command_display tool_name tool_input,
             cwd := cwd, pattern := extract_command_pat tool_name tool_input }]
    ∧ (handle_approve_request st agent_id tool_name tool_input cwd fresh_id).2.pending
        = st.pending ++ [fresh_id]
    ∧ (handle_approve_request st agent_id tool_name tool_input cwd fresh_id).2.delivered
        = st.delivered
    ∧ (∀ msg : WsApprovalMsg, msg.request_id = some fresh_id →
        (resolveApproval
            (handle_approve_request st agent_id tool_name tool_input cwd fresh_id).2
            msg).delivered
          = st.delivered ++ [(fresh_id, decisionOfMsg msg)]) := by
  have hmiss := @approve_miss st agent_id tool_name tool_input cwd fresh_id
    (should_auto_approve_false_of_not_mem hname hpat)
  refine ⟨by rw [hmiss], ?_, by rw [hmiss], by rw [hmiss], by rw [hmiss], ?_⟩
  · rw [hmiss]
    simp [List.count_append, List.count_eq_zero_of_not_mem hfresh]
  intro msg hmsg
  rw [hmiss]
  have hin : fresh_id ∈ st.pending ++ [fresh_id] := by simp
  rw [resolve_hit hmsg hin]

/-- Witness for C3: with an empty pattern store, a Bash request
suspends on the fresh id "r1", logs exactly one notification, and an
allow response for "r1" delivers the allow decision to the caller. -/
theorem cache_miss_notifies_witness :
    (handle_approve_request ⟨[], [], [], []⟩ "a1" "Bash"
        { command := some "npm install x" } "/p" "r1").1 = .suspended "r1"
    ∧ (handle_approve_request ⟨[], [], [], []⟩ "a1" "Bash"
        { command := some "npm install x" } "/p" "r1").2.pending.count "r1" = 1
    ∧ (handle_approve_request ⟨[], [], [], []⟩ "a1" "Bash"
        { command := some "npm install x" } "/p" "r1").2.notifs
      = [{ request_id := "r1", agent_id := "a1", tool_name := "Bash",
           tool_input := { command := some "npm install x" },
           command_display := command_display "Bash" { command := some "npm install x" },
           cwd := "/p", pattern := extract_command_pat "Bash" { command := some "npm install x" } }]
    ∧ (handle_approve_request ⟨[], [], [], []⟩ "a1" "Bash"
        { command := some "npm install x" } "/p" "r1").2.pending = [] ++ ["r1"]
    ∧ (handle_approve_request ⟨[], [], [], []⟩ "a1" "Bash"
        { command := some "npm install x" } "/p" "r1").2.delivered = []
    ∧ (∀ msg : WsApprovalMsg, msg.request_id = some "r1" →
        (resolveApproval
            (handle_approve_request ⟨[], [], [], []⟩ "a1" "Bash"
              { command := some "npm install x" } "/p" "r1").2 msg).delivered
          = [] ++ [("r1", decisionOfMsg msg)]) := by
  have h := cache_miss_notifies_and_suspends ⟨[], [], [], []⟩ "a1" "Bash"
    { command := some "npm install x" } "/p" "r1" (by decide) (by decide) (by decide)
  simpa using h

/-- C4: resolution discipline of the pending table.  Resolving an id
that is not pending changes nothing; resolving a pending id delivers
the decision exactly once and removes the entry; once an id has been
resolved, resolving it again (with any decision) changes nothing. -/
theorem resolve_once_discipline (st : ServerState) (msg msg' : WsApprovalMsg)
    (rid : String) (hmsg : msg.request_id = some rid) (hnd : st.pending.Nodup) :
    (rid ∉ st.pending → resolveApproval st msg = st)
    ∧ (rid ∈ st.pending →
        (resolveApproval st msg).delivered = st.delivered ++ [(rid, decisionOfMsg msg)]
        ∧ rid ∉ (resolveApproval st msg).pending)
    ∧ (msg'.request_id = some rid →
        resolveApproval (resolveApproval st msg) msg' = resolveApproval st msg) := by
  refine ⟨fun hout => resolve_unknown hmsg hout, fun hin => ?_, fun hmsg' => ?_⟩
  · rw [resolve_hit hmsg hin]
    refine ⟨rfl, ?_⟩
    intro hmem
    simp only at hmem
    exact ((List.Nodup.mem_erase_iff hnd).mp hmem).1 rfl
  · by_cases hin : rid ∈ st.pending
    · rw [resolve_hit hmsg hin]
      refine resolve_unknown hmsg' ?_
      intro hmem
      simp only at hmem
      exact ((List.Nodup.mem_erase_iff hnd).mp hmem).1 rfl
    · rw [resolve_unknown hmsg hin]
      exact resolve_unknown hmsg' hin

/-- Witness for C4 at the state with the single pending id "r1" and an
allow response for it. -/
theorem resolve_once_discipline_witness :
    ("r1" ∉ (⟨[], ["r1"], [], []⟩ : ServerState).pending →
        resolveApproval ⟨[], ["r1"], [], []⟩ ⟨some "r1", some "allow", none, none, none⟩
          = ⟨[], ["r1"], [], []⟩)
    ∧ ("r1" ∈ (⟨[], ["r1"], [], []⟩ : ServerState).pending →
        (resolveApproval ⟨[], ["r1"], [], []⟩
            ⟨some "r1", some "allow", none, none, none⟩).delivered
          = [] ++ [("r1", decisionOfMsg ⟨some "r1", some "allow", none, none, none⟩)]
        ∧ "r1" ∉ (resolveApproval ⟨[], ["r1"], [], []⟩
            ⟨some "r1", some "allow", none, none, none⟩).pending)
    ∧ ((⟨some "r1", some "deny", none, none, none⟩ : WsApprovalMsg).request_id = some "r1" →
        resolveApproval
            (resolveApproval ⟨[], ["r1"], [], []⟩ ⟨some "r1", some "allow", none, none, none⟩)
            ⟨some "r1", some "deny", none, none, none⟩
          = resolveApproval ⟨[], ["r1"], [], []⟩ ⟨some "r1", some "allow", none, none, none⟩) :=
  resolve_once_discipline ⟨[], ["r1"], [], []⟩
    ⟨some "r1", some "allow", none, none, none⟩
    ⟨some "r1", some "deny", none, none, none⟩ "r1" rfl (by decide)

/-- C9: when an observer resolves a pending approval with decision
"allow", the waiting caller receives updatedInput equal to the
tool_input field of the observer's message — `none` when that field is
absent — whatever the original request's tool input was; only the
cache-hit path echoes the original tool input back as updatedInput. -/
theorem resolved_updated_input_from_message (st : ServerState) (msg : WsApprovalMsg)
    (rid : String) (h1 : msg.request_id = some rid) (h2 : rid ∈ st.pending)
    (h3 : msg.decision = some "allow")
    (agent_id tool_name : String) (tool_input : ToolInput) (cwd fresh_id : String)
    (hcache : tool_name ∈ agentPatterns st.patterns agent_id ∨
              extract_command_pat tool_name tool_input ∈ agentPatterns st.patterns agent_id) :
    (resolveApproval st msg).delivered
        = st.delivered ++ [(rid, Decision.allow msg.tool_input)]
    ∧ (handle_approve_request st agent_id tool_name tool_input cwd fresh_id).1
        = .immediate (.allow (some tool_input)) := by
  constructor
  · rw [resolve_hit h1 h2]
    simp [decisionOfMsg, h3]
  · rw [approve_hit (should_auto_approve_true_of_mem hcache)]

/-- Witness for C9: the original request carried a Bash command, the
observer's allow message carries no tool_input at all, and the caller
receives updatedInput = none — not the original input; the cache-hit
path at the same state echoes its own input. -/
theorem resolved_updated_input_witness :
    (resolveApproval ⟨[("a1", "Edit")], ["r1"], [], []⟩
        ⟨some "r1", some "allow", none, none, none⟩).delivered
      = [] ++ [("r1", Decision.allow none)]
    ∧ (handle_approve_request ⟨[("a1", "Edit")], ["r1"], [], []⟩ "a1" "Edit" {} "" "r2").1
      = .immediate (.allow (some {})) :=
  resolved_updated_input_from_message ⟨[("a1", "Edit")], ["r1"], [], []⟩
    ⟨some "r1", some "allow", none, none, none⟩ "r1" rfl (by decide) rfl
    "a1" "Edit" {} "" "r2" (Or.inl (by decide))

/-- The externally triggered events that touch the pattern store and
the approval tables:
* `createAgent`: main.py line 512, `auto_approve_patterns[agent_id] = set()`;
* `deleteAgent`: main.py line 552, `auto_approve_patterns.pop(agent_id, None)`;
* `approveRequest`: a POST to /internal/approve-request up to its
  suspension point;
* `approvalResponse`: an "approval_response" websocket message. -/
inductive SysEvent where
  | createAgent (agent_id : String)
  | deleteAgent (agent_id : String)
  | approveRequest (agent_id tool_name : String) (tool_input : ToolInput)
      (cwd fresh_id : String)
  | approvalResponse (msg : WsApprovalMsg)
deriving DecidableEq, Repr

/-- One event's effect on the coordinator state. -/
def sysStep (st : ServerState) (e : SysEvent) : ServerState :=
  match e with
  | .createAgent a => { st with patterns := patClear st.patterns a }
  | .deleteAgent a => { st with patterns := patClear st.patterns a }
  | .approveRequest a tn ti cwd fid => (handle_approve_request st a tn ti cwd fid).2
  | .approvalResponse msg => handle_approval_response st msg

/-- The coordinator starts with no agents, no patterns, no pending
approvals. -/
def initState : ServerState := ⟨[], [], [], []⟩

/-- The state after a sequence of events. -/
def sysExec (evs : List SysEvent) : ServerState := evs.foldl sysStep initState

/-- `handle_approve_request` never changes the pattern store. -/
theorem approve_request_patterns_frame (st : ServerState) (a tn : String)
    (ti : ToolInput) (cwd fid : String) :
    (handle_approve_request st a tn ti cwd fid).2.patterns = st.patterns := by
  unfold handle_approve_request
  by_cases h : should_auto_approve st.patterns a tn ti <;> simp [h]

/-- `resolveApproval` never changes the pattern store. -/
theorem resolve_patterns_frame (st : ServerState) (msg : WsApprovalMsg) :
    (resolveApproval st msg).patterns = st.patterns := by
  unfold resolveApproval
  cases msg.request_id with
  | none => rfl
  | some rid => by_cases h : rid ∈ st.pending <;> simp [h]

/-- Every pair a single event adds to the pattern store comes from an
"approval_response" carrying that non-empty pattern, that non-empty
agent id, and decision "allow". -/
theorem sysStep_patterns_origin (st : ServerState) (e : SysEvent) (a p : String)
    (h : (a, p) ∈ (sysStep st e).patterns) :
    (a, p) ∈ st.patterns
    ∨ ∃ msg, e = .approvalResponse msg ∧ msg.pattern = some p ∧ p ≠ ""
        ∧ msg.agent_id = some a ∧ a ≠ "" ∧ msg.decision = some "allow" := by
  cases e with
  | createAgent b =>
      refine Or.inl ?_
      exact (List.mem_filter.mp h).1
  | deleteAgent b =>
      refine Or.inl ?_
      exact (List.mem_filter.mp h).1
  | approveRequest b tn ti cwd fid =>
      rw [sysStep, approve_request_patterns_frame] at h
      exact Or.inl h
  | approvalResponse msg =>
      rw [sysStep, handle_approval_response, resolve_patterns_frame] at h
      unfold storePattern at h
      rcases hp : msg.pattern with _ | p'
      · rw [hp] at h; exact Or.inl h
      · rcases ha : msg.agent_id with _ | a'
        · rw [hp, ha] at h; exact Or.inl h
        · rw [hp, ha] at h
          dsimp only at h
          by_cases hc : p' ≠ "" ∧ a' ≠ "" ∧ msg.decision = some "allow"
          · rw [if_pos hc] at h
            dsimp only at h
            unfold patAdd at h
            by_cases hmem : (a', p') ∈ st.patterns
            · rw [if_pos hmem] at h; exact Or.inl h
            · rw [if_neg hmem] at h
              rcases List.mem_cons.mp h with heq | hold
              · simp only [Prod.mk.injEq] at heq
                obtain ⟨rfl, rfl⟩ := heq
                exact Or.inr ⟨msg, rfl, hp, hc.1, ha, hc.2.1, hc.2.2⟩
              · exact Or.inl hold
          · rw [if_neg hc] at h; exact Or.inl h

/-- Pattern-store origin along a whole trace, generalized over the
starting state. -/
theorem foldl_patterns_origin (evs : List SysEvent) (st : ServerState) (a p : String)
    (h : (a, p) ∈ (evs.foldl sysStep st).patterns) :
    (a, p) ∈ st.patterns
    ∨ ∃ msg, SysEvent.approvalResponse msg ∈ evs ∧ msg.pattern = some p ∧ p ≠ ""
        ∧ msg.agent_id = some a ∧ a ≠ "" ∧ msg.decision = some "allow" := by
  induction evs generalizing st with
  | nil => exact Or.inl h
  | cons e rest ih =>
      rcases ih (sysStep st e) h with hin | ⟨msg, hmem, hrest⟩
      · rcases sysStep_patterns_origin st e a p hin with h1 | ⟨msg, he, hrest⟩
        · exact Or.inl h1
        · exact Or.inr ⟨msg, by rw [he] at *; exact List.mem_cons_self _ _, hrest⟩
      · exact Or.inr ⟨msg, List.mem_cons_of_mem _ hmem, hrest⟩

/-- A response whose decision is not literally "allow" stores no
pattern. -/
theorem storePattern_frame_of_not_allow (st : ServerState) (msg : WsApprovalMsg)
    (h : msg.decision ≠ some "allow") : storePattern st msg = st := by
  unfold storePattern
  cases hp : msg.pattern with
  | none => rfl
  | some p =>
      cases ha : msg.agent_id with
      | none => rfl
      | some a =>
          dsimp only
          rw [if_neg]
          intro hcontra
          exact h hcontra.2.2

/-- C10: in every state reachable by a trace of agent creations, agent
deletions, approval requests and approval responses, every pattern in
an agent's auto-approve set was put there by an "approval_response"
event carrying that non-empty pattern, that non-empty agent id and
decision "allow" (agent creation only ever contributes the empty set);
moreover a response whose decision is not "allow" never changes the
pattern store at all. -/
theorem patterns_only_from_allow_responses (evs : List SysEvent) (a p : String)
    (h : p ∈ agentPatterns (sysExec evs).patterns a) :
    (∃ msg, SysEvent.approvalResponse msg ∈ evs ∧ msg.pattern = some p ∧ p ≠ ""
        ∧ msg.agent_id = some a ∧ a ≠ "" ∧ msg.decision = some "allow")
    ∧ (∀ st msg, msg.decision ≠ some "allow" →
        (handle_approval_response st msg).patterns = st.patterns) := by
  constructor
  · have h2 : (a, p) ∈ (sysExec evs).patterns := mem_agentPatterns.mp h
    rcases foldl_patterns_origin evs initState a p h2 with hinit | hfound
    · exact absurd hinit (by simp [initState])
    · exact hfound
  · intro st msg hmsg
    rw [handle_approval_response, resolve_patterns_frame,
      storePattern_frame_of_not_allow st msg hmsg]

/-- Witness for C10: after creating agent "a1" and storing "Bash:npm"
through an allow response, the pattern's presence is explained by that
response. -/
theorem patterns_only_from_allow_witness :
    ∃ msg, SysEvent.approvalResponse msg ∈
        ([.createAgent "a1",
          .approvalResponse ⟨some "r1", some "allow", some "Bash:npm", some "a1", none⟩] :
          List SysEvent)
      ∧ msg.pattern = some "Bash:npm" ∧ "Bash:npm" ≠ ""
      ∧ msg.agent_id = some "a1" ∧ "a1" ≠ "" ∧ msg.decision = some "allow" :=
  (patterns_only_from_allow_responses
    [.createAgent "a1",
     .approvalResponse ⟨some "r1", some "allow", some "Bash:npm", some "a1", none⟩]
    "a1" "Bash:npm" (by decide)).1

/-- One content item of an MCP tool result: mcp_permission_server.py
renders {"type": "text", "text": json.dumps(decision)}; the serialized
decision is kept structured here. -/
structure RpcContent where
  ctype : String
  text : Decision
deriving DecidableEq, Repr

/-- A JSON-RPC protocol error ({"code": ..., "message": ...}). -/
structure RpcError where
  code : Int
  message : String
deriving DecidableEq, Repr

/-- A JSON-RPC response line of the Protocol Adapter: same id as the
request, and either a result or an error object. -/
structure RpcResponse where
  jsonrpc : String
  id : Int
  result : Option (List RpcContent)
  error : Option RpcError
deriving DecidableEq, Repr

/-- `handle_tools_call` of mcp_permission_server.py (lines 111-203).
The outbound HTTP call to the Broker is abstracted as its outcome: an
`Except` that is `.ok decision` when the POST returned a decision and
`.error e` when any exception with text `e` was raised (network error,
broker unavailable, malformed body).  A non-"approve" tool yields the
-32601 protocol error; a broker failure yields a result whose textual
content is a deny decision embedding the error text. -/
def handle_tools_call (request_id : Int) (tool_name : String)
    (brokerCall : Except String Decision) : RpcResponse :=
  if tool_name ≠ "approve" then
    { jsonrpc := "2.0", id := request_id, result := none,
      error := some { code := -32601, message := "Unknown tool: " ++ tool_name } }
  else
    match brokerCall with
    | .ok decision =>
        { jsonrpc := "2.0", id := request_id,
          result := some [{ ctype := "text", text := decision }], error := none }
    | .error e =>
        { jsonrpc := "2.0", id := request_id,
          result := some [{ ctype := "text",
                            text := .deny ("Permission server error: " ++ e) }],
          error := none }

/-- C7: whenever the outbound call to the Broker fails, the Adapter
still answers the "approve" call: the response carries the same
request id, a present (non-omitted) result whose single textual content
is a deny decision, and the deny message embeds the error text. -/
theorem adapter_error_fails_closed :
    ∀ (request_id : Int) (e : String),
      handle_tools_call request_id "approve" (.error e)
        = { jsonrpc := "2.0", id := request_id,
            result := some [{ ctype := "text",
                              text := .deny ("Permission server error: " ++ e) }],
            error := none }
      ∧ (handle_tools_call request_id "approve" (.error e)).result.isSome = true
      ∧ ∃ pre post,
          ("Permission server error: " ++ e) = pre ++ e ++ post := by
  intro request_id e
  refine ⟨rfl, rfl, "Permission server error: ", "", by simp⟩

/-- The agent bookkeeping the snapshot reads (main.py lines 735-745):
project, status, mode, the full message log, and the waiting flag. -/
structure MessageRec where
  role : String
  content : String
deriving DecidableEq, Repr

/-- An agent record as the registry holds it (the fields the snapshot
sends). -/
structure AgentRec where
  project : String
  status : String
  mode : String
  messages : List MessageRec
  waiting_on_user : Bool
deriving DecidableEq, Repr

/-- One "init" snapshot message sent to a new observer. -/
structure InitMsg where
  agent_id : String
  project : String
  status : String
  mode : String
  messages : List MessageRec
  waiting_on_user : Bool
deriving DecidableEq, Repr

/-- The snapshot replayed to a late joiner: one init message per known
agent, in registry order. -/
def snapshotOf (agents : List (String × AgentRec)) : List InitMsg :=
  agents.map (fun kv =>
    { agent_id := kv.1, project := kv.2.project, status := kv.2.status,
      mode := kv.2.mode, messages := kv.2.messages,
      waiting_on_user := kv.2.waiting_on_user })

/-- `websocket_endpoint` on connect (main.py lines 731-746): the
observer (identified here by a number) is appended to the broadcast
membership and then receives the snapshot. -/
def subscribeObserver (clients : List Nat) (ws : Nat)
    (agents : List (String × AgentRec)) : List Nat × List InitMsg :=
  (clients ++ [ws], snapshotOf agents)

/-- C8: an observer connecting while N agents exist joins the
broadcast membership and receives exactly one snapshot message per
existing agent — N in all — and the message for each agent carries its
id, project, status, mode, full untruncated message log and waiting
flag; conversely every snapshot message comes from a registered
agent. -/
theorem subscribe_snapshot_complete :
    ∀ (clients : List Nat) (ws : Nat) (agents : List (String × AgentRec)),
      ws ∈ (subscribeObserver clients ws agents).1
      ∧ (subscribeObserver clients ws agents).2.length = agents.length
      ∧ (∀ aid ag, (aid, ag) ∈ agents →
          ({ agent_id := aid, project := ag.project, status := ag.status,
             mode := ag.mode, messages := ag.messages,
             waiting_on_user := ag.waiting_on_user } : InitMsg)
            ∈ (subscribeObserver clients ws agents).2)
      ∧ (∀ m ∈ (subscribeObserver clients ws agents).2,
          ∃ ag, (m.agent_id, ag) ∈ agents
            ∧ m.project = ag.project ∧ m.status = ag.status ∧ m.mode = ag.mode
            ∧ m.messages = ag.messages ∧ m.waiting_on_user = ag.waiting_on_user) := by
  intro clients ws agents
  refine ⟨by simp [subscribeObserver], by simp [subscribeObserver, snapshotOf], ?_, ?_⟩
  · intro aid ag h
    exact List.mem_map.mpr ⟨(aid, ag), h, rfl⟩
  · intro m hm
    obtain ⟨⟨aid, ag⟩, hmem, heq⟩ := List.mem_map.mp hm
    subst heq
    exact ⟨ag, hmem, rfl, rfl, rfl, rfl, rfl⟩

/-- `isPrefixList` agrees with list-prefix decomposition. -/
theorem isPrefixList_iff (a b : List Char) :
    isPrefixList a b = true ↔ ∃ t, b = a ++ t := by
  induction a generalizing b with
  | nil => simp [isPrefixList]
  | cons c as ih =>
      cases b with
      | nil =>
          simp [isPrefixList]
      | cons d bs =>
          rw [isPrefixList]
          simp only [Bool.and_eq_true, beq_iff_eq, ih, List.cons_append,
            List.cons.injEq]
          constructor
          · rintro ⟨rfl, t, rfl⟩
            exact ⟨t, rfl, rfl⟩
          · rintro ⟨t, rfl, rfl⟩
            exact ⟨rfl, t, rfl⟩

/-- `hasSubstr` agrees with contiguous-occurrence decomposition. -/
theorem hasSubstr_iff (s sub : List Char) :
    hasSubstr s sub = true ↔ ∃ pre post, s = pre ++ sub ++ post := by
  induction s with
  | nil =>
      rw [hasSubstr]
      simp [List.isEmpty_iff, eq_comm (a := ([] : List Char)), List.append_eq_nil]
  | cons c t ih =>
      rw [hasSubstr]
      simp only [Bool.or_eq_true, isPrefixList_iff, ih]
      constructor
      · rintro (⟨tail, htail⟩ | ⟨pre, post, rfl⟩)
        · exact ⟨[], tail, by simpa using htail⟩
        · exact ⟨c :: pre, post, by simp⟩
      · rintro ⟨pre, post, h⟩
        cases pre with
        | nil =>
            exact Or.inl ⟨post, by simpa using h⟩
        | cons x xs =>
            simp only [List.cons_append, List.cons.injEq] at h
            obtain ⟨rfl, rfl⟩ := h
            exact Or.inr ⟨xs, post, rfl⟩

/-- `sub` occurs contiguously in `s` (what Python's `sub in s` tests). -/
def OccursIn (sub s : String) : Prop :=
  ∃ pre post : List Char, s.data = pre ++ sub.data ++ post

/-- `pyIn` decides `OccursIn`. -/
theorem pyIn_iff_occursIn (sub s : String) :
    pyIn sub s = true ↔ OccursIn sub s :=
  hasSubstr_iff s.data sub.data

/-- The fixed question phrases of the Stream Classifier
(main.py lines 376-388). -/
def questionPhrases : List String :=
  ["would you", "should i", "do you want", "which", "what", "how", "prefer",
   "like me to"]

/-- The classifier's treatment of one assistant text block
(main.py lines 370-390): the block is an interrupt of kind "question"
exactly when the text contains "?" and its lowercased form contains one
of the fixed phrases. -/
def textInterrupt (text : String) : Option String :=
  if pyIn "?" text && questionPhrases.any (fun q => pyIn q text.toLower) then
    some "question"
  else none

/-- C6: an assistant text block is classified as an interrupt of kind
"question" if and only if the text contains the character "?" and the
lowercased text contains at least one of the phrases "would you",
"should i", "do you want", "which", "what", "how", "prefer",
"like me to" as a substring. -/
theorem question_classifier_iff :
    ∀ text : String,
      textInterrupt text = some "question"
        ↔ (OccursIn "?" text ∧ ∃ q ∈ questionPhrases, OccursIn q text.toLower) := by
  intro text
  unfold textInterrupt
  constructor
  · intro h
    by_cases hc : pyIn "?" text && questionPhrases.any (fun q => pyIn q text.toLower)
    · rw [Bool.and_eq_true] at hc
      obtain ⟨h1, h2⟩ := hc
      obtain ⟨q, hq, hocc⟩ := List.any_eq_true.mp h2
      exact ⟨(pyIn_iff_occursIn _ _).mp h1, q, hq,
        (pyIn_iff_occursIn _ _).mp hocc⟩
    · rw [if_neg hc] at h
      exact absurd h (by simp)
  · rintro ⟨h1, q, hq, hocc⟩
    have hb : (pyIn "?" text && questionPhrases.any (fun q => pyIn q text.toLower))
        = true := by
      rw [Bool.and_eq_true]
      exact ⟨(pyIn_iff_occursIn "?" text).mpr h1,
        List.any_eq_true.mpr ⟨q, hq, (pyIn_iff_occursIn q text.toLower).mpr hocc⟩⟩
    rw [if_pos hb]

/-- The three agent statuses of main.py. -/
inductive AgStatus where
  | idle
  | working
  | needs_attention
deriving DecidableEq, Repr

/-- The per-agent lifecycle state: the status string and whether a
Claude process is live (streaming). -/
structure AgentSt where
  status : AgStatus
  live : Bool
deriving DecidableEq, Repr

/-- The events that touch an agent's status in main.py:
* `start`: `run_claude` begins (line 246, status := working) — reached
  from agent creation, the execute endpoint, or a chat message to an
  agent with no live process; it spawns the process;
* `interrupt`: the stream loop classifies an interrupt (lines 416-425,
  status := needs_attention);
* `streamEnd`: the stream ends and the `finally` block runs (lines
  453-463, status := idle, process handle released);
* `userInputLive`: a chat message is written to a live process's stdin
  (lines 819-842, status := working). -/
inductive AgEvent where
  | start
  | interrupt
  | streamEnd
  | userInputLive
deriving DecidableEq, Repr

/-- One event's effect on an agent; `none` when the event cannot fire
in that state (`start` needs no live process, the other three need a
live one). -/
def agStep (s : AgentSt) (e : AgEvent) : Option AgentSt :=
  match e with
  | .start => if s.live then none else some ⟨.working, true⟩
  | .interrupt => if s.live then some ⟨.needs_attention, true⟩ else none
  | .streamEnd => if s.live then some ⟨.idle, false⟩ else none
  | .userInputLive => if s.live then some ⟨.working, true⟩ else none

/-- A fresh agent is idle with no process (main.py lines 500-509). -/
def initAgent : AgentSt := ⟨.idle, false⟩

/-- Agent states reachable from creation. -/
inductive ReachableAg : AgentSt → Prop where
  | init : ReachableAg initAgent
  | step {s s' : AgentSt} {e : AgEvent} :
      ReachableAg s → agStep s e = some s' → ReachableAg s'

/-- The transitions the claim allows: idle→working on a prompt,
working→needs_attention on an interrupt, working→idle on stream end,
needs_attention→working on user input to the live process. -/
def claimedTransition (s : AgStatus) (e : AgEvent) (s' : AgStatus) : Prop :=
  (s = .idle ∧ e = .start ∧ s' = .working)
  ∨ (s = .working ∧ e = .interrupt ∧ s' = .needs_attention)
  ∨ (s = .working ∧ e = .streamEnd ∧ s' = .idle)
  ∨ (s = .needs_attention ∧ e = .userInputLive ∧ s' = .working)

/-- The transitions the code actually takes: the claimed ones plus
needs_attention→idle when the stream ends after an interrupt (the
`finally` block of `run_claude` sets status to idle unconditionally). -/
def amendedTransition (s : AgStatus) (e : AgEvent) (s' : AgStatus) : Prop :=
  claimedTransition s e s' ∨ (s = .needs_attention ∧ e = .streamEnd ∧ s' = .idle)

/-- The claimed transition relations are decidable. -/
instance (s : AgStatus) (e : AgEvent) (s' : AgStatus) :
    Decidable (claimedTransition s e s') := by
  unfold claimedTransition
  infer_instance

/-- Reachable lifecycle invariant: the process is live exactly when the
status is not idle. -/
theorem reachable_live_iff (s : AgentSt) (h : ReachableAg s) :
    s.live = false ↔ s.status = .idle := by
  induction h with
  | init => simp [initAgent]
  | step hr hs ih =>
      rename_i s s' e
      cases e with
      | start =>
          rw [agStep] at hs
          by_cases hl : s.live = true
          · rw [if_pos hl] at hs; exact absurd hs (by simp)
          · rw [if_neg hl] at hs
            simp only [Option.some.injEq] at hs
            rw [← hs]; simp
      | interrupt =>
          rw [agStep] at hs
          by_cases hl : s.live = true
          · rw [if_pos hl] at hs
            simp only [Option.some.injEq] at hs
            rw [← hs]; simp
          · rw [if_neg hl] at hs; exact absurd hs (by simp)
      | streamEnd =>
          rw [agStep] at hs
          by_cases hl : s.live = true
          · rw [if_pos hl] at hs
            simp only [Option.some.injEq] at hs
            rw [← hs]; simp
          · rw [if_neg hl] at hs; exact absurd hs (by simp)
      | userInputLive =>
          rw [agStep] at hs
          by_cases hl : s.live = true
          · rw [if_pos hl] at hs
            simp only [Option.some.injEq] at hs
            rw [← hs]; simp
          · rw [if_neg hl] at hs; exact absurd hs (by simp)

/-- Counterexample to C5 as stated: the state (needs_attention, live)
is reachable (start a run, classify an interrupt), and when its stream
then ends the code moves needs_attention→idle — a transition out of
needs_attention without any user input, which the claim's transition
list does not allow. -/
theorem status_needs_attention_to_idle_cex :
    ReachableAg ⟨.needs_attention, true⟩
    ∧ agStep ⟨.needs_attention, true⟩ .streamEnd = some ⟨.idle, false⟩
    ∧ ¬ claimedTransition .needs_attention .streamEnd .idle := by
  refine ⟨?_, rfl, by decide⟩
  exact @ReachableAg.step ⟨.working, true⟩ ⟨.needs_attention, true⟩ .interrupt
    (@ReachableAg.step initAgent ⟨.working, true⟩ .start ReachableAg.init rfl) rfl

/-- C5 (amended): in every reachable agent state, every status-changing
step is one of: idle→working on a prompt, working→needs_attention on an
interrupt, working→idle on stream end, needs_attention→working on user
input — or needs_attention→idle on stream end, the extra transition the
`finally` block of `run_claude` performs, which the claim as stated
omits. -/
theorem status_transitions_amended (s s' : AgentSt) (e : AgEvent)
    (hr : ReachableAg s) (hs : agStep s e = some s')
    (hch : s.status ≠ s'.status) :
    amendedTransition s.status e s'.status := by
  have hinv := reachable_live_iff s hr
  cases e with
  | start =>
      rw [agStep] at hs
      by_cases hl : s.live = true
      · rw [if_pos hl] at hs; exact absurd hs (by simp)
      · rw [if_neg hl] at hs
        simp only [Option.some.injEq] at hs
        have hidle : s.status = .idle := hinv.mp (by simpa using hl)
        rw [← hs]
        exact Or.inl (Or.inl ⟨hidle, rfl, rfl⟩)
  | interrupt =>
      rw [agStep] at hs
      by_cases hl : s.live = true
      · rw [if_pos hl] at hs
        simp only [Option.some.injEq] at hs
        rw [← hs] at hch ⊢
        have hnidle : s.status ≠ .idle := by
          intro hcon
          have h2 := hinv.mpr hcon
          rw [h2] at hl
          exact absurd hl (by simp)
        cases hst : s.status with
        | idle => exact absurd hst hnidle
        | working => exact Or.inl (Or.inr (Or.inl ⟨rfl, rfl, rfl⟩))
        | needs_attention => exact absurd hst hch
      · rw [if_neg hl] at hs; exact absurd hs (by simp)
  | streamEnd =>
      rw [agStep] at hs
      by_cases hl : s.live = true
      · rw [if_pos hl] at hs
        simp only [Option.some.injEq] at hs
        rw [← hs] at hch ⊢
        have hnidle : s.status ≠ .idle := by
          intro hcon
          have h2 := hinv.mpr hcon
          rw [h2] at hl
          exact absurd hl (by simp)
        cases hst : s.status with
        | idle => exact absurd hst hnidle
        | working => exact Or.inl (Or.inr (Or.inr (Or.inl ⟨rfl, rfl, rfl⟩)))
        | needs_attention => exact Or.inr ⟨rfl, rfl, rfl⟩
      · rw [if_neg hl] at hs; exact absurd hs (by simp)
  | userInputLive =>
      rw [agStep] at hs
      by_cases hl : s.live = true
      · rw [if_pos hl] at hs
        simp only [Option.some.injEq] at hs
        rw [← hs] at hch ⊢
        have hnidle : s.status ≠ .idle := by
          intro hcon
          have h2 := hinv.mpr hcon
          rw [h2] at hl
          exact absurd hl (by simp)
        cases hst : s.status with
        | idle => exact absurd hst hnidle
        | working => exact absurd hst hch
        | needs_attention => exact Or.inl (Or.inr (Or.inr (Or.inr ⟨rfl, rfl, rfl⟩)))
      · rw [if_neg hl] at hs; exact absurd hs (by simp)

/-- Witness for the amended C5: a working stream ending takes the
reachable state (working, live) to idle, a claimed transition. -/
theorem status_transitions_witness :
    amendedTransition AgStatus.working AgEvent.streamEnd AgStatus.idle :=
  status_transitions_amended ⟨.working, true⟩ ⟨.idle, false⟩ .streamEnd
    (@ReachableAg.step initAgent ⟨.working, true⟩ .start ReachableAg.init rfl) rfl
    (by decide)
